import Mathlib

/-!
# Verification of the HDF5 dataset persistence layer

Shallow embedding of `src/ion/data/persist/hdf5_dataset.py`
(`DatasetHDF5Persistence`): schema compilation, container creation,
the append engine with its capacity-growth policy, and the query engine.

Modelling conventions:
* HDF5 extents become `Extent α`: a list of cells (length = allocated
  capacity, h5py zero-fills new space) plus the committed `last_row`
  attribute.  Descriptive attributes (`description`, `unit`, `position`,
  `dtype_repr`) are written once at creation and never read back by any
  code path under verification, so they are not carried in the state.
* Python dicts keyed by strings become association lists with
  dict-update semantics (`upsert` replaces the binding of an existing
  key in place, otherwise appends).
* Fallible operations return `Except PyErr _`; each `PyErr` constructor
  names the Python exception class the source raises at that point.
* Machine integers are `Int`/`Nat`; `num_rows / ds_increment` in
  `_resize_dataset` is Python 2 floor division of non-negative ints,
  which is `Nat` division.
-/

namespace Scion

/-! ## Module constants (hdf5_dataset.py top level) -/

def DS_LAYOUT_COMBINED : String := "vars_combined"

def DS_LAYOUT_INDIVIDUAL : String := "vars_individual"

def DS_FILE_PREFIX : String := "ds_"

def DS_BASE_PATH : String := "SCIDATA/datasets"

def DEFAULT_ROW_INCREMENT : Nat := 1000

def DEFAULT_TIME_VARIABLE : String := "time"

def DS_VARIABLES : String := "data"

/-! ## Errors -/

/-- Python exceptions raised (or named by the spec) on the modelled code
paths.  `configurationError` appears in the spec's taxonomy; the source
never raises it. -/
inductive PyErr where
  | configurationError : String → PyErr
  | badRequest : String → PyErr
  | keyError : String → PyErr
  | notImplementedError : PyErr
  | osError : String → PyErr
  deriving Repr, DecidableEq

/-! ## Association-list helpers with Python dict semantics -/

/-- Replace the value bound to the first occurrence of key `k`, if any. -/
def updateAssoc (k : String) (f : α → α) : List (String × α) → List (String × α)
  | [] => []
  | (k', v) :: rest =>
      if k' = k then (k', f v) :: rest else (k', v) :: updateAssoc k f rest

/-- Python dict assignment `d[k] = v`: replace an existing binding in
place, else append a new one. -/
def upsert (k : String) (v : α) (l : List (String × α)) : List (String × α) :=
  if (l.lookup k).isSome then updateAssoc k (fun _ => v) l else l ++ [(k, v)]

/-- Python dict `del` / `pop`: drop the binding of `k`. -/
def removeKey (k : String) : List (String × α) → List (String × α)
  | [] => []
  | (k', v) :: rest =>
      if k' = k then removeKey k rest else (k', v) :: removeKey k rest

/-! ## Schema -/

/-- One raw variable description from the dataset schema (a dict in the
source; `Option` fields are the keys read with `.get(key, default)`). -/
structure VarInfo where
  name : String
  base_type : Option String := none
  storage_dtype : Option String := none
  deriving Repr, DecidableEq

/-- The `persistence` sub-dict of the schema's `attributes`. -/
structure PersistenceAttrs where
  layout : Option String := none
  row_increment : Option Nat := none
  time_variable : Option String := none
  deriving Repr, DecidableEq

/-- Raw dataset schema handed to `DatasetHDF5Persistence`: the
`variables` list (field `var_list` here; `variables` is reserved in
Lean) and `attributes["persistence"]` (which may be absent —
`.get("persistence", None) or {}`). -/
structure DatasetSchema where
  var_list : List VarInfo
  persistence : Option PersistenceAttrs := none
  deriving Repr, DecidableEq

/-- Result of `_parse_schema`: the fields it stores on `self`. -/
structure ParsedSchema where
  ds_layout : String
  ds_increment : Nat
  var_defs : List VarInfo
  var_defs_map : List (String × VarInfo)
  time_var : String
  var_index : List (String × Nat)
  deriving Repr, DecidableEq

/-- `DatasetHDF5Persistence._parse_schema`.  An unknown layout value
degrades to Individual (with a warning in the source).  The source
raises no exception on any input; the `Except` result records that the
translation is of fallible Python code with no failing path. -/
def parse_schema (s : DatasetSchema) : Except PyErr ParsedSchema :=
  let pattrs := s.persistence.getD {}
  let layout0 := pattrs.layout.getD DS_LAYOUT_INDIVIDUAL
  let ds_layout :=
    if layout0 = DS_LAYOUT_COMBINED ∨ layout0 = DS_LAYOUT_INDIVIDUAL then layout0
    else DS_LAYOUT_INDIVIDUAL
  let ds_increment := pattrs.row_increment.getD DEFAULT_ROW_INCREMENT
  let var_defs := s.var_list
  -- `{vi["name"]: vi for vi in var_defs}`: later duplicates overwrite.
  let var_defs_map := var_defs.foldl (fun m vi => upsert vi.name vi m) []
  let time_var := pattrs.time_variable.getD DEFAULT_TIME_VARIABLE
  -- `for position, var_info in enumerate(var_defs): var_index[name] = position`
  let var_index :=
    (var_defs.enum.map (fun p => (p.2.name, p.1))).foldl
      (fun m q => upsert q.1 q.2 m) []
  .ok { ds_layout, ds_increment, var_defs, var_defs_map, time_var, var_index }

/-! ## Container state -/

/-- One growable HDF5 dataset ("extent"): `values` is the allocated
storage (its length is the capacity; h5py fills fresh space with the
type's zero), `last_row` the committed high-water-mark attribute. -/
structure Extent (α : Type) where
  values : List α
  last_row : Nat
  deriving Repr, DecidableEq

/-- A record of the Combined layout: one cell per schema variable in
schema order; `none` is the null sentinel written for a field absent
from the packet. -/
abbrev CRecord := List (Option Int)

/-- The HDF5 container file for one dataset.  `ivars` are the per-variable
extents of the Individual layout (`vars/<name>`); `cvar` is the single
record extent of the Combined layout (`vars/data`). -/
structure DSFile where
  dataset_id : String
  layout : String
  ivars : List (String × Extent Int) := []
  cvar : Option (Extent CRecord) := none
  deriving Repr, DecidableEq

/-- Initial container contents written by `require_dataset` under the
lock: layout-appropriate extents of capacity `ds_increment`, zero-filled,
`last_row = 0` everywhere. -/
def create_container (ps : ParsedSchema) (dataset_id : String) : DSFile :=
  if ps.ds_layout = DS_LAYOUT_INDIVIDUAL then
    { dataset_id, layout := ps.ds_layout,
      ivars := ps.var_defs.map
        (fun vi => (vi.name,
          { values := List.replicate ps.ds_increment 0, last_row := 0 })),
      cvar := none }
  else
    { dataset_id, layout := ps.ds_layout,
      ivars := [],
      cvar := some
        { values := List.replicate ps.ds_increment
            (ps.var_defs.map (fun _ => some 0)),
          last_row := 0 } }

/-! ## Filesystem and `require_dataset` -/

/-- The container-side filesystem: created container files by path, and
the set of directories that exist. -/
structure FS where
  files : List (String × DSFile) := []
  dirs : List String := []
  deriving Repr, DecidableEq

/-- `_get_ds_filename`: deterministic path from base namespace and id. -/
def ds_filename (dataset_id : String) : String :=
  DS_BASE_PATH ++ "/" ++ DS_FILE_PREFIX ++ dataset_id ++ ".hdf5"

/-- Split a character list at every `/` (helper for `parent_dir`). -/
def splitSlash : List Char → List (List Char)
  | [] => [[]]
  | c :: cs =>
    if c = '/' then [] :: splitSlash cs
    else match splitSlash cs with
      | [] => [[c]]
      | h :: t => (c :: h) :: t

/-- Re-join path components with `/` (helper for `parent_dir`). -/
def joinSlash : List (List Char) → List Char
  | [] => []
  | [h] => h
  | h :: t => h ++ '/' :: joinSlash t

/-- `os.path.split(fn)[0]`: the path up to (excluding) the last `/`. -/
def parent_dir (fn : String) : String :=
  ⟨joinSlash ((splitSlash fn.data).dropLast)⟩

/-- `DatasetHDF5Persistence.require_dataset`.  If the file exists,
return it unchanged.  Otherwise `os.makedirs` is called unconditionally
on the parent directory — it raises `OSError` when that directory
already exists — then the container is created and initialised. -/
def require_dataset (ps : ParsedSchema) (dataset_id : String) (fs : FS) :
    Except PyErr (FS × String × Bool) :=
  let fn := ds_filename dataset_id
  if (fs.files.lookup fn).isSome then
    .ok (fs, fn, false)
  else if fs.dirs.contains (parent_dir fn) then
    .error (.osError (parent_dir fn))
  else
    .ok ({ files := (fn, create_container ps dataset_id) :: fs.files,
           dirs := parent_dir fn :: fs.dirs }, fn, true)

/-! ## Ingestion packets -/

/-- One row of a packet's structured data block: field name → value. -/
abbrev PRow := List (String × Int)

/-- `packet.data`: the `cols` list and the row-major structured value
block; `num_rows = len(packet.data["data"])` is `rows.length`. -/
structure Packet where
  cols : List String
  rows : List PRow
  deriving Repr, DecidableEq

/-- `packet.data["data"][:][var_name]`: the named column of the
structured block (well-formed packets carry every listed column in every
row; a missing field defaults to 0 in the model). -/
def colData (p : Packet) (var_name : String) : List Int :=
  p.rows.map (fun r => (r.lookup var_name).getD 0)

/-! ## Append engine -/

/-- Overwrite `vs` starting at index `start` with the elements of `xs`
(h5py slice assignment `var_ds[start:start+len(xs)] = xs`); cells beyond
the end of `vs` are dropped (the callers guarantee the slice fits). -/
def writeSlice : List α → Nat → List α → List α
  | vs, _, [] => vs
  | [], _, _ => []
  | _ :: vs, 0, x :: xs => x :: writeSlice vs 0 xs
  | v :: vs, Nat.succ k, xs => v :: writeSlice vs k xs

/-- `_resize_dataset`: grow to
`cur_size + (num_rows / ds_increment + 1) * ds_increment`; h5py fills
the new cells with the type's zero `fill`. -/
def resize_dataset (inc num_rows : Nat) (fill : α) (e : Extent α) : Extent α :=
  let cur_size := e.values.length
  let new_size := cur_size + (num_rows / inc + 1) * inc
  { e with values := e.values ++ List.replicate (new_size - cur_size) fill }

/-- The per-extent body of `extend_dataset`: read `cur_size`/`cur_idx`,
resize when `cur_idx + num_rows > cur_size`, write the batch at
`[cur_idx, cur_idx + num_rows)`, advance `last_row` by `num_rows`. -/
def appendExtent (inc num_rows : Nat) (fill : α) (e : Extent α)
    (data_slice : List α) : Extent α :=
  let cur_size := e.values.length
  let cur_idx := e.last_row
  let e1 := if cur_idx + num_rows > cur_size
            then resize_dataset inc num_rows fill e else e
  { values := writeSlice e1.values cur_idx data_slice,
    last_row := cur_idx + num_rows }

/-- One iteration of `extend_dataset`'s Individual-layout loop: skip
the column (with a warning) when no extent of that name exists,
otherwise append the column's data to that extent. -/
def extend_col (inc : Nat) (p : Packet)
    (vars : List (String × Extent Int)) (c : String) :
    List (String × Extent Int) :=
  if (vars.lookup c).isSome then
    updateAssoc c
      (fun e => appendExtent inc p.rows.length 0 e (colData p c)) vars
  else vars

/-- The Individual-layout branch of `extend_dataset`: process each
packet column in order. -/
def extend_individual (inc : Nat) (p : Packet)
    (vars0 : List (String × Extent Int)) : List (String × Extent Int) :=
  p.cols.foldl (extend_col inc p) vars0

/-- One Combined-layout record for a packet row: for each schema
variable in order, the row's value if the variable is a packet column,
else the null sentinel (`row_data[vn] if vn in pvi else None`). -/
def rowVals (p : Packet) (var_defs : List VarInfo) (row : PRow) : CRecord :=
  var_defs.map (fun vi =>
    if p.cols.contains vi.name then row.lookup vi.name else none)

/-- `DatasetHDF5Persistence.extend_dataset` on the opened container. -/
def extend_dataset (ps : ParsedSchema) (p : Packet) (f : DSFile) :
    Except PyErr DSFile :=
  let num_rows := p.rows.length
  if ps.ds_layout = DS_LAYOUT_INDIVIDUAL then
    .ok { f with ivars := extend_individual ps.ds_increment p f.ivars }
  else if ps.ds_layout = DS_LAYOUT_COMBINED then
    match f.cvar with
    | none => .error (.badRequest "Cannot find combined dataset")
    | some e =>
        let recs := p.rows.map (rowVals p ps.var_defs)
        let e2 := appendExtent ps.ds_increment num_rows
          (ps.var_defs.map (fun _ => some 0)) e recs
        .ok { f with cvar := some e2 }
  else
    .ok f

/-! ## Query engine -/

/-- `get_data`'s `data_filter` dict; `Option` fields model keys read with
`.get(key, default)`, `variables := []` models both an absent and an
empty list (both falsy under the source's `or`). -/
structure DataFilter where
  read_variables : List String := []
  time_format : Option String := none
  max_rows : Option Nat := none
  transpose_time : Bool := false
  deriving Repr, DecidableEq

/-- Modelled from the spec: `IonTime.from_ntp64(dv.tostring()).to_unix()`
lives in `pyon.util.ion_time`, which is not part of the source tree.
The spec says `"unix_millis"` converts each raw time value to an integer
count of milliseconds since the Unix epoch; NTP time counts seconds from
1900-01-01, which precedes the Unix epoch by 2208988800 seconds, so the
conversion `int(1000 * ...)` is modelled as below on integral raw
values. -/
def ntp_to_unix_millis (dv : Int) : Int :=
  1000 * (dv - 2208988800)

/-- The trailing read window of `get_data`:
`var_ds[max(cur_idx - max_rows, 0):cur_idx]` (truncated `Nat`
subtraction is exactly the `max(·, 0)`). -/
def sliceWindow (e : Extent Int) (max_rows : Nat) : List Int :=
  (e.values.take e.last_row).drop (e.last_row - max_rows)

/-- The per-variable body of `get_data`'s Individual-layout loop:
`none` when the variable has no extent (skipped with a warning);
otherwise the window, converted when the variable is the designated time
variable with base type `"ntp_time"` and the requested format is
`"unix_millis"`.  The `var_defs_map[var_name]` subscript raises
`KeyError` when the time variable is absent from the schema map. -/
def read_var_series (ps : ParsedSchema) (tf : String) (mr : Nat)
    (f : DSFile) (v : String) : Except PyErr (Option (List Int)) :=
  match f.ivars.lookup v with
  | none => .ok none
  | some e =>
    let data_array := sliceWindow e mr
    if v = ps.time_var then
      match ps.var_defs_map.lookup v with
      | none => .error (.keyError v)
      | some vi =>
        if vi.base_type.getD "" = "ntp_time" then
          if tf = "unix_millis" then
            .ok (some (data_array.map ntp_to_unix_millis))
          else .ok (some data_array)
        else .ok (some data_array)
    else .ok (some data_array)

/-- The Individual-layout loop of `get_data`: fill the `res_data` dict
(`acc`) variable by variable. -/
def collect_vars (ps : ParsedSchema) (tf : String) (mr : Nat) (f : DSFile)
    (acc : List (String × List Int)) :
    List String → Except PyErr (List (String × List Int))
  | [] => .ok acc
  | v :: rest =>
    match read_var_series ps tf mr f v with
    | .error err => .error err
    | .ok none => collect_vars ps tf mr f acc rest
    | .ok (some arr) => collect_vars ps tf mr f (upsert v arr acc) rest

/-- A `get_data` result: the plain per-variable sequences, or — after
`transpose_time` — per-variable sequences of (time, value) pairs. -/
inductive QueryResult where
  | plain : List (String × List Int) → QueryResult
  | transposed : List (String × List (Int × Int)) → QueryResult
  deriving Repr, DecidableEq

/-- The variable names `get_data` reads:
`data_filter.get("variables", []) or [vi["name"] for vi in var_defs]`. -/
def effective_read_vars (ps : ParsedSchema) (flt : DataFilter) : List String :=
  if flt.read_variables.isEmpty then ps.var_defs.map (·.name)
  else flt.read_variables

/-- The body of `get_data` on an existing, opened container file.
With `transpose_time`, `res_data.pop(self.time_var)` raises `KeyError`
when no time sequence was collected; otherwise every remaining sequence
is replaced by its positional zip with the time sequence.  The Combined
layout raises `NotImplementedError`.  (The defaults
`"unix_millis"`/`999999999` are the source's `data_filter.get`
defaults.) -/
def get_data_file (ps : ParsedSchema) (f : DSFile) (flt : DataFilter) :
    Except PyErr QueryResult :=
  if ps.ds_layout = DS_LAYOUT_INDIVIDUAL then
    match collect_vars ps (flt.time_format.getD "unix_millis")
        (flt.max_rows.getD 999999999) f [] (effective_read_vars ps flt) with
    | .error err => .error err
    | .ok res =>
      if flt.transpose_time then
        match res.lookup ps.time_var with
        | none => .error (.keyError ps.time_var)
        | some time_series =>
          .ok (.transposed ((removeKey ps.time_var res).map
            (fun q => (q.1, time_series.zip q.2))))
      else .ok (.plain res)
  else if ps.ds_layout = DS_LAYOUT_COMBINED then
    .error .notImplementedError
  else
    .ok (.plain [])

/-- `DatasetHDF5Persistence.get_data`.  A missing container file
(`f? = none`) yields the empty mapping (not an error). -/
def get_data (ps : ParsedSchema) (f? : Option DSFile) (flt : DataFilter) :
    Except PyErr QueryResult :=
  match f? with
  | none => .ok (.plain [])
  | some f => get_data_file ps f flt

/-! ## Reachable container states (create, then any sequence of appends) -/

/-- Container states reachable from creation by `extend_dataset` calls,
for a fixed parsed schema. -/
inductive Reachable (ps : ParsedSchema) : DSFile → Prop where
  | create (dataset_id : String) : Reachable ps (create_container ps dataset_id)
  | extend {f f' : DSFile} (p : Packet) :
      Reachable ps f → extend_dataset ps p f = .ok f' → Reachable ps f'

/-- Per-extent safety invariant of claim C3: committed rows never exceed
allocated capacity, for every Individual extent and for the Combined
record extent. -/
def invariantLE (f : DSFile) : Prop :=
  (∀ q ∈ f.ivars, (q.2 : Extent Int).last_row ≤ q.2.values.length) ∧
  (∀ e, f.cvar = some e → e.last_row ≤ e.values.length)

/-- The capacity of the extent named `v` (0 when absent), for the
growth-monotonicity statements. -/
def capOf (f : DSFile) (v : String) : Nat :=
  ((f.ivars.lookup v).map (fun e => e.values.length)).getD 0

/-- Capacity of the Combined record extent (0 when absent). -/
def capC (f : DSFile) : Nat :=
  (f.cvar.map (fun e => e.values.length)).getD 0

/-! ## Association-list lemmas -/

theorem lookup_cons_self (k : String) (v : α) (l : List (String × α)) :
    List.lookup k ((k, v) :: l) = some v := by
  simp [List.lookup]

theorem lookup_cons_ne {k k' : String} (h : k' ≠ k) (v : α)
    (l : List (String × α)) :
    List.lookup k' ((k, v) :: l) = List.lookup k' l := by
  simp only [List.lookup]
  rw [beq_false_of_ne h]

theorem lookup_updateAssoc_self (k : String) (g : α → α)
    (l : List (String × α)) :
    (updateAssoc k g l).lookup k = (l.lookup k).map g := by
  induction l with
  | nil => rfl
  | cons a l ih =>
    obtain ⟨k', v⟩ := a
    by_cases h : k' = k
    · subst h
      simp [updateAssoc, lookup_cons_self]
    · simp only [updateAssoc, if_neg h]
      rw [lookup_cons_ne (Ne.symm h), lookup_cons_ne (Ne.symm h), ih]

theorem lookup_updateAssoc_ne {k v : String} (h : v ≠ k) (g : α → α)
    (l : List (String × α)) :
    (updateAssoc k g l).lookup v = l.lookup v := by
  induction l with
  | nil => rfl
  | cons a l ih =>
    obtain ⟨k', w⟩ := a
    by_cases hk : k' = k
    · subst hk
      have hr : updateAssoc k' g ((k', w) :: l) = (k', g w) :: l := by
        simp [updateAssoc]
      rw [hr, lookup_cons_ne h, lookup_cons_ne h]
    · have hr : updateAssoc k g ((k', w) :: l)
          = (k', w) :: updateAssoc k g l := by
        simp [updateAssoc, hk]
      rw [hr]
      by_cases hv : k' = v
      · subst hv
        rw [lookup_cons_self, lookup_cons_self]
      · rw [lookup_cons_ne (Ne.symm hv), lookup_cons_ne (Ne.symm hv), ih]

theorem lookup_append_left {l1 l2 : List (String × α)} {k : String} {v : α}
    (h : l1.lookup k = some v) : (l1 ++ l2).lookup k = some v := by
  induction l1 with
  | nil => simp [List.lookup] at h
  | cons a l ih =>
    obtain ⟨k', w⟩ := a
    by_cases hk : k = k'
    · subst hk
      rw [lookup_cons_self] at h
      simpa [lookup_cons_self] using h
    · rw [lookup_cons_ne hk] at h
      rw [List.cons_append, lookup_cons_ne hk]
      exact ih h

theorem lookup_append_right {l1 l2 : List (String × α)} {k : String}
    (h : l1.lookup k = none) : (l1 ++ l2).lookup k = l2.lookup k := by
  induction l1 with
  | nil => rfl
  | cons a l ih =>
    obtain ⟨k', w⟩ := a
    by_cases hk : k = k'
    · subst hk
      rw [lookup_cons_self] at h
      exact absurd h (by simp)
    · rw [lookup_cons_ne hk] at h
      rw [List.cons_append, lookup_cons_ne hk]
      exact ih h

theorem lookup_upsert_self (k : String) (v : α) (l : List (String × α)) :
    (upsert k v l).lookup k = some v := by
  unfold upsert
  by_cases h : (l.lookup k).isSome
  · rw [if_pos h, lookup_updateAssoc_self]
    obtain ⟨w, hw⟩ := Option.isSome_iff_exists.mp h
    rw [hw]
    rfl
  · rw [if_neg h]
    rw [Option.not_isSome_iff_eq_none] at h
    rw [lookup_append_right h, lookup_cons_self]

theorem lookup_upsert_ne {k v : String} (h : v ≠ k) (x : α)
    (l : List (String × α)) :
    (upsert k x l).lookup v = l.lookup v := by
  unfold upsert
  by_cases hs : (l.lookup k).isSome
  · rw [if_pos hs, lookup_updateAssoc_ne h]
  · rw [if_neg hs]
    by_cases hv : (l.lookup v).isSome
    · obtain ⟨w, hw⟩ := Option.isSome_iff_exists.mp hv
      rw [hw, lookup_append_left hw]
    · rw [Option.not_isSome_iff_eq_none] at hv
      rw [hv, lookup_append_right hv, lookup_cons_ne h]
      rfl

theorem keys_updateAssoc (k : String) (g : α → α) (l : List (String × α)) :
    (updateAssoc k g l).map Prod.fst = l.map Prod.fst := by
  induction l with
  | nil => rfl
  | cons a l ih =>
    obtain ⟨k', v⟩ := a
    by_cases h : k' = k <;> simp [updateAssoc, h, ih]

theorem not_mem_keys_of_lookup_none {l : List (String × α)} {k : String}
    (h : l.lookup k = none) : k ∉ l.map Prod.fst := by
  induction l with
  | nil => simp
  | cons a l ih =>
    obtain ⟨k', v⟩ := a
    by_cases hk : k = k'
    · subst hk
      rw [lookup_cons_self] at h
      exact absurd h (by simp)
    · rw [lookup_cons_ne hk] at h
      simp only [List.map_cons, List.mem_cons]
      push_neg
      exact ⟨hk, ih h⟩

theorem lookup_none_of_not_mem_keys {l : List (String × α)} {k : String}
    (h : k ∉ l.map Prod.fst) : l.lookup k = none := by
  induction l with
  | nil => rfl
  | cons a l ih =>
    obtain ⟨k', v⟩ := a
    simp only [List.map_cons, List.mem_cons] at h
    push_neg at h
    rw [lookup_cons_ne h.1]
    exact ih h.2

theorem keys_upsert_nodup {l : List (String × α)} (k : String) (v : α)
    (h : (l.map Prod.fst).Nodup) : ((upsert k v l).map Prod.fst).Nodup := by
  unfold upsert
  by_cases hs : (l.lookup k).isSome
  · rw [if_pos hs, keys_updateAssoc]
    exact h
  · rw [if_neg hs]
    rw [Option.not_isSome_iff_eq_none] at hs
    have hk := not_mem_keys_of_lookup_none hs
    rw [List.map_append]
    refine List.Nodup.append h (by simp) ?_
    intro x hx hx2
    simp only [List.map_cons, List.map_nil, List.mem_singleton] at hx2
    subst hx2
    exact hk hx

theorem mem_removeKey {l : List (String × α)} {k : String} {q : String × α} :
    q ∈ removeKey k l ↔ q ∈ l ∧ q.1 ≠ k := by
  induction l with
  | nil => simp [removeKey]
  | cons a l ih =>
    obtain ⟨k', v⟩ := a
    by_cases h : k' = k
    · subst h
      have hr : removeKey k' ((k', v) :: l) = removeKey k' l := by
        simp [removeKey]
      rw [hr, ih]
      constructor
      · rintro ⟨hm, hne⟩
        exact ⟨List.mem_cons_of_mem _ hm, hne⟩
      · rintro ⟨hm, hne⟩
        cases List.mem_cons.mp hm with
        | inl he => exact absurd (congrArg Prod.fst he) hne
        | inr hm' => exact ⟨hm', hne⟩
    · have hr : removeKey k ((k', v) :: l) = (k', v) :: removeKey k l := by
        simp [removeKey, h]
      rw [hr]
      simp only [List.mem_cons, ih]
      constructor
      · rintro (rfl | ⟨hm, hne⟩)
        · exact ⟨Or.inl rfl, h⟩
        · exact ⟨Or.inr hm, hne⟩
      · rintro ⟨rfl | hm, hne⟩
        · exact Or.inl rfl
        · exact Or.inr ⟨hm, hne⟩

theorem keys_removeKey_not_mem (l : List (String × α)) (k : String) :
    k ∉ (removeKey k l).map Prod.fst := by
  intro h
  obtain ⟨q, hq, hfst⟩ := List.mem_map.mp h
  exact (mem_removeKey.mp hq).2 hfst

/-! ## Write-slice and resize lemmas -/

theorem writeSlice_nil_right (vs : List α) (s : Nat) :
    writeSlice vs s [] = vs := by
  cases vs with
  | nil => rfl
  | cons v vs => cases s <;> rfl

theorem writeSlice_length (vs : List α) (s : Nat) (xs : List α) :
    (writeSlice vs s xs).length = vs.length := by
  induction vs generalizing s xs with
  | nil => cases xs <;> rfl
  | cons v vs ih =>
    cases xs with
    | nil => rw [writeSlice_nil_right]
    | cons x xs' =>
      cases s with
      | zero => simpa [writeSlice] using ih 0 xs'
      | succ k => simpa [writeSlice] using ih k (x :: xs')

theorem writeSlice_getElem?_lt (vs : List α) (s : Nat) (xs : List α)
    (i : Nat) (h : i < s) :
    (writeSlice vs s xs)[i]? = vs[i]? := by
  induction vs generalizing s xs i with
  | nil => cases xs <;> rfl
  | cons v vs ih =>
    cases xs with
    | nil => rw [writeSlice_nil_right]
    | cons x xs' =>
      cases s with
      | zero => omega
      | succ k =>
        cases i with
        | zero => simp [writeSlice]
        | succ j =>
          show (v :: writeSlice vs k (x :: xs'))[j + 1]? = (v :: vs)[j + 1]?
          rw [List.getElem?_cons_succ, List.getElem?_cons_succ]
          exact ih k (x :: xs') j (by omega)

theorem writeSlice_getElem?_in (vs : List α) (s : Nat) (xs : List α)
    (i : Nat) (hfit : s + xs.length ≤ vs.length) (hi : i < xs.length) :
    (writeSlice vs s xs)[s + i]? = xs[i]? := by
  induction vs generalizing s xs i with
  | nil =>
    simp only [List.length_nil, Nat.le_zero] at hfit
    omega
  | cons v vs ih =>
    cases xs with
    | nil => simp at hi
    | cons x xs' =>
      cases s with
      | zero =>
        cases i with
        | zero => simp [writeSlice]
        | succ j =>
          show (x :: writeSlice vs 0 xs')[0 + (j + 1)]? = (x :: xs')[j + 1]?
          have : 0 + (j + 1) = j + 1 := by omega
          rw [this, List.getElem?_cons_succ, List.getElem?_cons_succ]
          have hfit' : 0 + xs'.length ≤ vs.length := by
            simp only [List.length_cons] at hfit
            omega
          have := ih 0 xs' j hfit' (by simpa using hi)
          simpa using this
      | succ k =>
        show (v :: writeSlice vs k (x :: xs'))[k + 1 + i]? = (x :: xs')[i]?
        have : k + 1 + i = (k + i) + 1 := by omega
        rw [this, List.getElem?_cons_succ]
        exact ih k (x :: xs') i (by simp only [List.length_cons] at hfit ⊢; omega) hi

theorem resize_dataset_length (inc num_rows : Nat) (fill : α) (e : Extent α) :
    (resize_dataset inc num_rows fill e).values.length
      = e.values.length + (num_rows / inc + 1) * inc := by
  simp [resize_dataset]

theorem resize_dataset_last_row (inc num_rows : Nat) (fill : α) (e : Extent α) :
    (resize_dataset inc num_rows fill e).last_row = e.last_row := rfl

theorem resize_dataset_getElem?_lt (inc num_rows : Nat) (fill : α)
    (e : Extent α) (i : Nat) (hi : i < e.values.length) :
    (resize_dataset inc num_rows fill e).values[i]? = e.values[i]? := by
  simp only [resize_dataset]
  rw [List.getElem?_append]
  simp [hi]

/-- Key arithmetic fact behind the growth policy: one increment more
than `num_rows / inc` increments always covers `num_rows` new rows. -/
theorem num_rows_lt_growth (num_rows inc : Nat) (hinc : 0 < inc) :
    num_rows < (num_rows / inc + 1) * inc := by
  have h1 := Nat.div_add_mod num_rows inc
  have h2 := Nat.mod_lt num_rows hinc
  have h3 : (num_rows / inc + 1) * inc = inc * (num_rows / inc) + inc := by ring
  omega

/-! ## appendExtent lemmas -/

theorem appendExtent_last_row (inc n : Nat) (fill : α) (e : Extent α)
    (xs : List α) :
    (appendExtent inc n fill e xs).last_row = e.last_row + n := rfl

theorem appendExtent_values (inc n : Nat) (fill : α) (e : Extent α)
    (xs : List α) :
    (appendExtent inc n fill e xs).values
      = writeSlice (if e.last_row + n > e.values.length
                    then resize_dataset inc n fill e else e).values
          e.last_row xs := rfl

theorem appendExtent_length (inc n : Nat) (fill : α) (e : Extent α)
    (xs : List α) :
    (appendExtent inc n fill e xs).values.length
      = if e.last_row + n > e.values.length
        then e.values.length + (n / inc + 1) * inc
        else e.values.length := by
  rw [appendExtent_values, writeSlice_length]
  by_cases h : e.last_row + n > e.values.length
  · rw [if_pos h, if_pos h, resize_dataset_length]
  · rw [if_neg h, if_neg h]

theorem appendExtent_le (inc n : Nat) (fill : α) (e : Extent α) (xs : List α)
    (hinc : 0 < inc) (hle : e.last_row ≤ e.values.length) :
    (appendExtent inc n fill e xs).last_row
      ≤ (appendExtent inc n fill e xs).values.length := by
  rw [appendExtent_last_row, appendExtent_length]
  have := num_rows_lt_growth n inc hinc
  split <;> omega

theorem appendExtent_getElem?_lt (inc n : Nat) (fill : α) (e : Extent α)
    (xs : List α) (i : Nat) (hle : e.last_row ≤ e.values.length)
    (hi : i < e.last_row) :
    (appendExtent inc n fill e xs).values[i]? = e.values[i]? := by
  rw [appendExtent_values]
  by_cases h : e.last_row + n > e.values.length
  · rw [if_pos h, writeSlice_getElem?_lt _ _ _ _ hi,
      resize_dataset_getElem?_lt _ _ _ _ _ (by omega)]
  · rw [if_neg h, writeSlice_getElem?_lt _ _ _ _ hi]

theorem appendExtent_getElem?_in (inc n : Nat) (fill : α) (e : Extent α)
    (xs : List α) (i : Nat) (hinc : 0 < inc)
    (hle : e.last_row ≤ e.values.length) (hxs : xs.length = n) (hi : i < n) :
    (appendExtent inc n fill e xs).values[e.last_row + i]? = xs[i]? := by
  have hgrow := num_rows_lt_growth n inc hinc
  rw [appendExtent_values]
  by_cases h : e.last_row + n > e.values.length
  · rw [if_pos h]
    exact writeSlice_getElem?_in _ _ _ _
      (by rw [resize_dataset_length]; omega) (by omega)
  · rw [if_neg h]
    exact writeSlice_getElem?_in _ _ _ _ (by omega) (by omega)

/-! ## extend_individual fold lemmas -/

theorem lookup_extend_col_ne {v c : String} (hne : v ≠ c) (inc : Nat)
    (p : Packet) (vars : List (String × Extent Int)) :
    (extend_col inc p vars c).lookup v = vars.lookup v := by
  unfold extend_col
  by_cases hs : (vars.lookup c).isSome
  · rw [if_pos hs, lookup_updateAssoc_ne hne]
  · rw [if_neg hs]

theorem lookup_extend_col_self (v : String) (inc : Nat) (p : Packet)
    (vars : List (String × Extent Int)) :
    (extend_col inc p vars v).lookup v
      = (vars.lookup v).map
          (fun e => appendExtent inc p.rows.length 0 e (colData p v)) := by
  unfold extend_col
  by_cases hs : (vars.lookup v).isSome
  · rw [if_pos hs, lookup_updateAssoc_self]
  · rw [if_neg hs]
    rw [Option.not_isSome_iff_eq_none] at hs
    rw [hs]
    rfl

theorem lookup_foldl_extend_not_mem {v : String} {cols : List String}
    (hv : v ∉ cols) (inc : Nat) (p : Packet)
    (vars0 : List (String × Extent Int)) :
    (cols.foldl (extend_col inc p) vars0).lookup v = vars0.lookup v := by
  induction cols generalizing vars0 with
  | nil => rfl
  | cons c rest ih =>
    simp only [List.mem_cons] at hv
    push_neg at hv
    rw [List.foldl_cons, ih hv.2, lookup_extend_col_ne hv.1]

theorem lookup_foldl_extend_mem {v : String} {cols : List String}
    (hnd : cols.Nodup) (hv : v ∈ cols) (inc : Nat) (p : Packet)
    (vars0 : List (String × Extent Int)) :
    (cols.foldl (extend_col inc p) vars0).lookup v
      = (vars0.lookup v).map
          (fun e => appendExtent inc p.rows.length 0 e (colData p v)) := by
  induction cols generalizing vars0 with
  | nil => simp at hv
  | cons c rest ih =>
    rw [List.foldl_cons]
    rcases List.mem_cons.mp hv with rfl | hvr
    · have hvnr : v ∉ rest := (List.nodup_cons.mp hnd).1
      rw [lookup_foldl_extend_not_mem hvnr, lookup_extend_col_self]
    · have hne : v ≠ c := by
        rintro rfl
        exact (List.nodup_cons.mp hnd).1 hvr
      rw [ih (List.nodup_cons.mp hnd).2 hvr, lookup_extend_col_ne hne]

theorem mem_updateAssoc {q : String × α} {k : String} {g : α → α}
    {l : List (String × α)} (h : q ∈ updateAssoc k g l) :
    q ∈ l ∨ ∃ e, (k, e) ∈ l ∧ q = (k, g e) := by
  induction l with
  | nil => simp [updateAssoc] at h
  | cons a l ih =>
    obtain ⟨k', v⟩ := a
    by_cases hk : k' = k
    · subst hk
      have hr : updateAssoc k' g ((k', v) :: l) = (k', g v) :: l := by
        simp [updateAssoc]
      rw [hr] at h
      rcases List.mem_cons.mp h with rfl | hm
      · exact Or.inr ⟨v, List.mem_cons_self _ _, rfl⟩
      · exact Or.inl (List.mem_cons_of_mem _ hm)
    · have hr : updateAssoc k g ((k', v) :: l)
          = (k', v) :: updateAssoc k g l := by
        simp [updateAssoc, hk]
      rw [hr] at h
      rcases List.mem_cons.mp h with rfl | hm
      · exact Or.inl (List.mem_cons_self _ _)
      · rcases ih hm with hm' | ⟨e, he, rfl⟩
        · exact Or.inl (List.mem_cons_of_mem _ hm')
        · exact Or.inr ⟨e, List.mem_cons_of_mem _ he, rfl⟩

theorem mem_extend_col {q : (String × Extent Int)} {c : String} {inc : Nat}
    {p : Packet} {vars : List (String × Extent Int)}
    (h : q ∈ extend_col inc p vars c) :
    q ∈ vars ∨ ∃ e, (c, e) ∈ vars
      ∧ q = (c, appendExtent inc p.rows.length 0 e (colData p c)) := by
  unfold extend_col at h
  by_cases hs : (vars.lookup c).isSome
  · rw [if_pos hs] at h
    exact mem_updateAssoc h
  · rw [if_neg hs] at h
    exact Or.inl h

theorem foldl_extend_preserve (P : Extent Int → Prop) (inc : Nat) (p : Packet)
    (hP : ∀ e xs, P e → P (appendExtent inc p.rows.length 0 e xs))
    (cols : List String) (vars0 : List (String × Extent Int))
    (h0 : ∀ q ∈ vars0, P q.2) :
    ∀ q ∈ cols.foldl (extend_col inc p) vars0, P q.2 := by
  induction cols generalizing vars0 with
  | nil => exact h0
  | cons c rest ih =>
    rw [List.foldl_cons]
    refine ih _ ?_
    intro q hq
    rcases mem_extend_col hq with hm | ⟨e, he, rfl⟩
    · exact h0 q hm
    · exact hP e _ (h0 (c, e) he)

/-- Allocated capacity of the extent named `v` in an extent list. -/
def capL (vars : List (String × Extent Int)) (v : String) : Nat :=
  ((vars.lookup v).map (fun e => e.values.length)).getD 0

theorem capL_extend_col (inc : Nat) (p : Packet)
    (vars : List (String × Extent Int)) (c v : String) :
    ∃ k, capL (extend_col inc p vars c) v = capL vars v + k * inc := by
  by_cases hvc : v = c
  · subst hvc
    unfold capL
    rw [lookup_extend_col_self]
    cases hl : vars.lookup v with
    | none => exact ⟨0, by simp⟩
    | some e =>
      refine ⟨if e.last_row + p.rows.length > e.values.length
              then p.rows.length / inc + 1 else 0, ?_⟩
      show (appendExtent inc p.rows.length 0 e (colData p v)).values.length
        = e.values.length + (if e.last_row + p.rows.length > e.values.length
            then p.rows.length / inc + 1 else 0) * inc
      rw [appendExtent_length]
      by_cases h2 : e.last_row + p.rows.length > e.values.length
      · rw [if_pos h2, if_pos h2]
      · rw [if_neg h2, if_neg h2]
        simp
  · exact ⟨0, by unfold capL; rw [lookup_extend_col_ne hvc]; simp⟩

theorem capL_foldl_extend (inc : Nat) (p : Packet) (cols : List String)
    (vars0 : List (String × Extent Int)) (v : String) :
    ∃ k, capL (cols.foldl (extend_col inc p) vars0) v
      = capL vars0 v + k * inc := by
  induction cols generalizing vars0 with
  | nil => exact ⟨0, by simp⟩
  | cons c rest ih =>
    rw [List.foldl_cons]
    obtain ⟨k2, hk2⟩ := ih (extend_col inc p vars0 c)
    obtain ⟨k1, hk1⟩ := capL_extend_col inc p vars0 c v
    exact ⟨k1 + k2, by rw [hk2, hk1]; ring⟩

/-! ## Query-engine lemmas -/

theorem colData_length (p : Packet) (v : String) :
    (colData p v).length = p.rows.length := by
  simp [colData]

theorem read_var_series_no_extent {ps : ParsedSchema} {tf : String} {mr : Nat}
    {f : DSFile} {v : String} (h : f.ivars.lookup v = none) :
    read_var_series ps tf mr f v = .ok none := by
  unfold read_var_series
  rw [h]

theorem read_var_series_ne_time {ps : ParsedSchema} {tf : String} {mr : Nat}
    {f : DSFile} {v : String} (hne : v ≠ ps.time_var) :
    read_var_series ps tf mr f v
      = .ok ((f.ivars.lookup v).map (fun e => sliceWindow e mr)) := by
  unfold read_var_series
  cases f.ivars.lookup v with
  | none => rfl
  | some e => simp [hne]

theorem collect_cons_error {ps : ParsedSchema} {tf : String} {mr : Nat}
    {f : DSFile} {c : String} {err : PyErr}
    (hc : read_var_series ps tf mr f c = .error err)
    (acc : List (String × List Int)) (rest : List String) :
    collect_vars ps tf mr f acc (c :: rest) = .error err := by
  simp only [collect_vars, hc]

theorem collect_cons_none {ps : ParsedSchema} {tf : String} {mr : Nat}
    {f : DSFile} {c : String}
    (hc : read_var_series ps tf mr f c = .ok none)
    (acc : List (String × List Int)) (rest : List String) :
    collect_vars ps tf mr f acc (c :: rest)
      = collect_vars ps tf mr f acc rest := by
  simp only [collect_vars, hc]

theorem collect_cons_some {ps : ParsedSchema} {tf : String} {mr : Nat}
    {f : DSFile} {c : String} {arr : List Int}
    (hc : read_var_series ps tf mr f c = .ok (some arr))
    (acc : List (String × List Int)) (rest : List String) :
    collect_vars ps tf mr f acc (c :: rest)
      = collect_vars ps tf mr f (upsert c arr acc) rest := by
  simp only [collect_vars, hc]

theorem collect_lookup_stable {ps : ParsedSchema} {tf : String} {mr : Nat}
    {f : DSFile} {v : String} {arr : List Int}
    (hser : read_var_series ps tf mr f v = .ok (some arr)) :
    ∀ (vs : List String) (acc : List (String × List Int)),
      acc.lookup v = some arr →
      ∀ res, collect_vars ps tf mr f acc vs = .ok res →
        res.lookup v = some arr := by
  intro vs
  induction vs with
  | nil =>
    intro acc hacc res hok
    cases hok
    exact hacc
  | cons c rest ih =>
    intro acc hacc res hok
    cases hc : read_var_series ps tf mr f c with
    | error err => rw [collect_cons_error hc] at hok; cases hok
    | ok o =>
      cases o with
      | none =>
        rw [collect_cons_none hc] at hok
        exact ih acc hacc res hok
      | some arr' =>
        rw [collect_cons_some hc] at hok
        by_cases hvc : v = c
        · subst hvc
          have harr : arr' = arr := by
            rw [hser] at hc
            injection hc with h1
            injection h1 with h2
            exact h2.symm
          subst harr
          exact ih _ (lookup_upsert_self v arr' acc) res hok
        · refine ih _ ?_ res hok
          rw [lookup_upsert_ne hvc]
          exact hacc

theorem collect_lookup_mem {ps : ParsedSchema} {tf : String} {mr : Nat}
    {f : DSFile} {v : String} {arr : List Int}
    (hser : read_var_series ps tf mr f v = .ok (some arr)) :
    ∀ (vs : List String) (acc : List (String × List Int)),
      v ∈ vs →
      ∀ res, collect_vars ps tf mr f acc vs = .ok res →
        res.lookup v = some arr := by
  intro vs
  induction vs with
  | nil => intro acc hv; simp at hv
  | cons c rest ih =>
    intro acc hv res hok
    by_cases hvc : v = c
    · subst hvc
      rw [collect_cons_some hser] at hok
      exact collect_lookup_stable hser rest _ (lookup_upsert_self v arr acc)
        res hok
    · have hvr : v ∈ rest := by
        rcases List.mem_cons.mp hv with rfl | hr
        · exact absurd rfl hvc
        · exact hr
      cases hc : read_var_series ps tf mr f c with
      | error err => rw [collect_cons_error hc] at hok; cases hok
      | ok o =>
        cases o with
        | none =>
          rw [collect_cons_none hc] at hok
          exact ih acc hvr res hok
        | some arr' =>
          rw [collect_cons_some hc] at hok
          exact ih _ hvr res hok

theorem collect_time_none {ps : ParsedSchema} {tf : String} {mr : Nat}
    {f : DSFile} :
    ∀ (vs : List String),
      (ps.time_var ∈ vs → f.ivars.lookup ps.time_var = none) →
      ∀ acc, ∃ res, collect_vars ps tf mr f acc vs = .ok res
        ∧ res.lookup ps.time_var = acc.lookup ps.time_var := by
  intro vs
  induction vs with
  | nil => intro _ acc; exact ⟨acc, rfl, rfl⟩
  | cons c rest ih =>
    intro h acc
    by_cases hct : c = ps.time_var
    · subst hct
      have hnone := h (List.mem_cons_self _ _)
      rw [collect_cons_none (read_var_series_no_extent hnone)]
      exact ih (fun hm => h (List.mem_cons_of_mem _ hm)) acc
    · have hc := @read_var_series_ne_time ps tf mr f c hct
      cases hl : f.ivars.lookup c with
      | none =>
        rw [hl] at hc
        rw [collect_cons_none hc]
        exact ih (fun hm => h (List.mem_cons_of_mem _ hm)) acc
      | some e =>
        rw [hl] at hc
        rw [collect_cons_some hc]
        obtain ⟨res, hok, hres⟩ :=
          ih (fun hm => h (List.mem_cons_of_mem _ hm))
            (upsert c (sliceWindow e mr) acc)
        refine ⟨res, hok, ?_⟩
        rw [hres, lookup_upsert_ne (fun he => hct he.symm)]

theorem collect_keys_nodup {ps : ParsedSchema} {tf : String} {mr : Nat}
    {f : DSFile} :
    ∀ (vs : List String) (acc : List (String × List Int)),
      (acc.map Prod.fst).Nodup →
      ∀ res, collect_vars ps tf mr f acc vs = .ok res →
        (res.map Prod.fst).Nodup := by
  intro vs
  induction vs with
  | nil =>
    intro acc hacc res hok
    cases hok
    exact hacc
  | cons c rest ih =>
    intro acc hacc res hok
    cases hc : read_var_series ps tf mr f c with
    | error err => rw [collect_cons_error hc] at hok; cases hok
    | ok o =>
      cases o with
      | none =>
        rw [collect_cons_none hc] at hok
        exact ih acc hacc res hok
      | some arr =>
        rw [collect_cons_some hc] at hok
        exact ih _ (keys_upsert_nodup c arr hacc) res hok

/-! ## Branch characterizations of get_data and extend_dataset -/

theorem get_data_individual (ps : ParsedSchema) (f : DSFile) (flt : DataFilter)
    (hlay : ps.ds_layout = DS_LAYOUT_INDIVIDUAL) :
    get_data ps (some f) flt =
      match collect_vars ps (flt.time_format.getD "unix_millis")
          (flt.max_rows.getD 999999999) f [] (effective_read_vars ps flt) with
      | .error err => .error err
      | .ok res =>
        if flt.transpose_time then
          match res.lookup ps.time_var with
          | none => .error (.keyError ps.time_var)
          | some time_series =>
            .ok (.transposed ((removeKey ps.time_var res).map
              (fun q => (q.1, time_series.zip q.2))))
        else .ok (.plain res) := by
  show get_data_file ps f flt = _
  unfold get_data_file
  rw [hlay, if_pos rfl]

theorem get_data_combined (ps : ParsedSchema) (f : DSFile) (flt : DataFilter)
    (hlay : ps.ds_layout = DS_LAYOUT_COMBINED) :
    get_data ps (some f) flt = .error .notImplementedError := by
  show get_data_file ps f flt = _
  unfold get_data_file
  rw [hlay,
    if_neg (show ¬ (DS_LAYOUT_COMBINED = DS_LAYOUT_INDIVIDUAL) by decide),
    if_pos rfl]

theorem extend_dataset_individual (ps : ParsedSchema) (p : Packet) (f : DSFile)
    (hlay : ps.ds_layout = DS_LAYOUT_INDIVIDUAL) :
    extend_dataset ps p f
      = .ok { f with ivars := extend_individual ps.ds_increment p f.ivars } := by
  unfold extend_dataset
  rw [hlay, if_pos rfl]

theorem extend_dataset_combined (ps : ParsedSchema) (p : Packet) (f : DSFile)
    (e : Extent CRecord) (hlay : ps.ds_layout = DS_LAYOUT_COMBINED)
    (hc : f.cvar = some e) :
    extend_dataset ps p f
      = .ok { f with cvar := some (appendExtent ps.ds_increment p.rows.length
            (ps.var_defs.map (fun _ => some 0)) e
            (p.rows.map (rowVals p ps.var_defs))) } := by
  unfold extend_dataset
  rw [hlay,
    if_neg (show ¬ (DS_LAYOUT_COMBINED = DS_LAYOUT_INDIVIDUAL) by decide),
    if_pos rfl, hc]

/-! ## Creation and reachability invariants -/

theorem create_container_init (ps : ParsedSchema) (dsid : String) :
    (∀ q ∈ (create_container ps dsid).ivars,
       (q.2 : Extent Int).last_row = 0
       ∧ q.2.values.length = ps.ds_increment)
    ∧ (∀ e, (create_container ps dsid).cvar = some e →
       e.last_row = 0 ∧ e.values.length = ps.ds_increment) := by
  unfold create_container
  by_cases h : ps.ds_layout = DS_LAYOUT_INDIVIDUAL
  · rw [if_pos h]
    constructor
    · intro q hq
      simp only [List.mem_map] at hq
      obtain ⟨vi, _, rfl⟩ := hq
      exact ⟨rfl, by simp⟩
    · intro e he
      simp at he
  · rw [if_neg h]
    constructor
    · intro q hq
      simp at hq
    · intro e he
      simp only [Option.some.injEq] at he
      subst he
      exact ⟨rfl, by simp⟩

theorem reachable_invariantLE (ps : ParsedSchema)
    (hinc : 0 < ps.ds_increment) :
    ∀ f, Reachable ps f → invariantLE f := by
  intro f hr
  induction hr with
  | create dsid =>
    obtain ⟨h1, h2⟩ := create_container_init ps dsid
    constructor
    · intro q hq
      rw [(h1 q hq).1]
      exact Nat.zero_le _
    · intro e he
      rw [(h2 e he).1]
      exact Nat.zero_le _
  | @extend f0 f1 p hprev hok ih =>
    by_cases h1 : ps.ds_layout = DS_LAYOUT_INDIVIDUAL
    · rw [extend_dataset_individual ps p f0 h1] at hok
      injection hok with hteq
      subst hteq
      constructor
      · exact foldl_extend_preserve
          (fun e => e.last_row ≤ e.values.length) ps.ds_increment p
          (fun e xs he => appendExtent_le _ _ _ _ _ hinc he) p.cols f0.ivars
          ih.1
      · intro e he
        exact ih.2 e he
    · unfold extend_dataset at hok
      rw [if_neg h1] at hok
      by_cases h2 : ps.ds_layout = DS_LAYOUT_COMBINED
      · rw [if_pos h2] at hok
        cases hc : f0.cvar with
        | none => rw [hc] at hok; cases hok
        | some e =>
          rw [hc] at hok
          injection hok with hteq
          subst hteq
          constructor
          · intro q hq
            exact ih.1 q hq
          · intro e' he'
            simp only [Option.some.injEq] at he'
            subst he'
            exact appendExtent_le _ _ _ _ _ hinc (ih.2 e hc)
      · rw [if_neg h2] at hok
        injection hok with hteq
        subst hteq
        exact ih

theorem extend_growth (ps : ParsedSchema) (p : Packet) (f f' : DSFile)
    (hok : extend_dataset ps p f = .ok f') :
    (∀ v, ∃ k, capOf f' v = capOf f v + k * ps.ds_increment)
    ∧ (∃ k, capC f' = capC f + k * ps.ds_increment) := by
  by_cases h1 : ps.ds_layout = DS_LAYOUT_INDIVIDUAL
  · rw [extend_dataset_individual ps p f h1] at hok
    injection hok with hteq
    subst hteq
    constructor
    · intro v
      exact capL_foldl_extend ps.ds_increment p p.cols f.ivars v
    · exact ⟨0, by simp [capC]⟩
  · unfold extend_dataset at hok
    rw [if_neg h1] at hok
    by_cases h2 : ps.ds_layout = DS_LAYOUT_COMBINED
    · rw [if_pos h2] at hok
      cases hc : f.cvar with
      | none => rw [hc] at hok; cases hok
      | some e =>
        rw [hc] at hok
        injection hok with hteq
        subst hteq
        have hcf : capC f = e.values.length := by
          unfold capC
          rw [hc]
          rfl
        constructor
        · intro v
          exact ⟨0, by simp [capOf]⟩
        · refine ⟨if e.last_row + p.rows.length > e.values.length
                  then p.rows.length / ps.ds_increment + 1 else 0, ?_⟩
          rw [hcf]
          show (appendExtent ps.ds_increment p.rows.length
              (ps.var_defs.map (fun _ => some 0)) e
              (p.rows.map (rowVals p ps.var_defs))).values.length
            = e.values.length + (if e.last_row + p.rows.length > e.values.length
                then p.rows.length / ps.ds_increment + 1 else 0) * ps.ds_increment
          rw [appendExtent_length]
          by_cases h3 : e.last_row + p.rows.length > e.values.length
          · rw [if_pos h3, if_pos h3]
          · rw [if_neg h3, if_neg h3]
            simp
    · rw [if_neg h2] at hok
      injection hok with hteq
      subst hteq
      exact ⟨fun v => ⟨0, by simp⟩, 0, by simp⟩

/-! ## Concrete fixtures used by witnesses and counterexamples -/

/-- Fixture: the spec's concrete-scenario time variable. -/
def viTime : VarInfo :=
  { name := "time", base_type := some "ntp_time", storage_dtype := some "f8" }

/-- Fixture: the spec's concrete-scenario temperature variable. -/
def viTemp : VarInfo :=
  { name := "temperature", base_type := some "float",
    storage_dtype := some "f8" }

/-- Fixture: parsed Individual-layout schema with `row_increment = 10`. -/
def psInd : ParsedSchema :=
  { ds_layout := DS_LAYOUT_INDIVIDUAL, ds_increment := 10,
    var_defs := [viTime, viTemp],
    var_defs_map := [("time", viTime), ("temperature", viTemp)],
    time_var := "time",
    var_index := [("time", 0), ("temperature", 1)] }

/-- Fixture: the same schema with Combined layout. -/
def psComb : ParsedSchema :=
  { psInd with ds_layout := DS_LAYOUT_COMBINED }

/-- Fixture: a two-row ingestion packet carrying both variables. -/
def pkt2 : Packet :=
  { cols := ["time", "temperature"],
    rows := [[("time", 2208988801), ("temperature", 21)],
             [("time", 2208988802), ("temperature", 22)]] }

/-- Fixture: freshly created Individual container. -/
def fInd0 : DSFile := create_container psInd "d"

/-- Fixture: `fInd0` after appending `pkt2`. -/
def fInd1 : DSFile := (extend_dataset psInd pkt2 fInd0).toOption.getD fInd0

/-- Fixture: freshly created Combined container. -/
def fComb0 : DSFile := create_container psComb "d"

/-- Fixture: `fComb0` after appending `pkt2`. -/
def fComb1 : DSFile := (extend_dataset psComb pkt2 fComb0).toOption.getD fComb0

/-- Fixture: an extent of capacity 10 with no committed rows. -/
def eInit10 : Extent Int := { values := List.replicate 10 0, last_row := 0 }

/-! ## Claims -/

/-- C1: appending `num_rows` rows to an extent resizes it exactly when
`last_row + num_rows > capacity`, and then the new capacity is
`capacity + (num_rows / row_increment + 1) * row_increment`; in
particular with `row_increment = 10`, capacity 10 and `last_row = 5`,
appending 8 rows grows the capacity to 20 and leaves `last_row = 13`. -/
theorem C1_resize_policy (inc num_rows : Nat) (e : Extent Int)
    (xs : List Int) (hinc : 0 < inc) :
    ((e.last_row + num_rows > e.values.length →
        (appendExtent inc num_rows 0 e xs).values.length
          = e.values.length + (num_rows / inc + 1) * inc
        ∧ e.values.length < (appendExtent inc num_rows 0 e xs).values.length)
     ∧ (e.last_row + num_rows ≤ e.values.length →
        (appendExtent inc num_rows 0 e xs).values.length = e.values.length)
     ∧ (appendExtent inc num_rows 0 e xs).last_row
         = e.last_row + num_rows)
    ∧ ((appendExtent 10 8 (0 : Int)
          { values := List.replicate 10 0, last_row := 5 }
          (List.replicate 8 1)).values.length = 20
       ∧ (appendExtent 10 8 (0 : Int)
          { values := List.replicate 10 0, last_row := 5 }
          (List.replicate 8 1)).last_row = 13) := by
  refine ⟨⟨fun h => ?_, fun h => ?_, appendExtent_last_row _ _ _ _ _⟩,
    by decide, by decide⟩
  · rw [appendExtent_length, if_pos h]
    exact ⟨rfl, Nat.lt_add_of_pos_right (Nat.mul_pos (Nat.succ_pos _) hinc)⟩
  · rw [appendExtent_length, if_neg (not_lt.mpr h)]

theorem C1_resize_policy_witness :
    0 < 10 ∧ (appendExtent 10 8 (0 : Int)
      { values := List.replicate 10 0, last_row := 5 }
      (List.replicate 8 1)).values.length = 20 :=
  ⟨by decide,
   (C1_resize_policy 10 8 { values := List.replicate 10 0, last_row := 5 }
      (List.replicate 8 1) (by decide)).2.1⟩

/-- C2: each extent written by an append receives the batch contiguously
at `[last_row, last_row + n)` and its `last_row` then advances by
exactly `n` (Individual per-column extents and the Combined record
extent alike); in Individual layout a schema variable absent from the
packet's columns is left completely untouched. -/
theorem C2_contiguous_append (ps : ParsedSchema) (p : Packet)
    (f f' : DSFile) (v : String) (hinc : 0 < ps.ds_increment)
    (hok : extend_dataset ps p f = .ok f') :
    (ps.ds_layout = DS_LAYOUT_INDIVIDUAL →
      (∀ e, f.ivars.lookup v = some e → e.last_row ≤ e.values.length →
        p.cols.Nodup → v ∈ p.cols →
        ∃ e', f'.ivars.lookup v = some e'
          ∧ e'.last_row = e.last_row + p.rows.length
          ∧ (∀ i, i < p.rows.length →
              e'.values[e.last_row + i]? = (colData p v)[i]?)
          ∧ (∀ i, i < e.last_row → e'.values[i]? = e.values[i]?))
      ∧ (v ∉ p.cols → f'.ivars.lookup v = f.ivars.lookup v))
    ∧ (ps.ds_layout = DS_LAYOUT_COMBINED →
      ∀ ec, f.cvar = some ec → ec.last_row ≤ ec.values.length →
        ∃ e', f'.cvar = some e'
          ∧ e'.last_row = ec.last_row + p.rows.length
          ∧ (∀ i, i < p.rows.length →
              e'.values[ec.last_row + i]?
                = (p.rows.map (rowVals p ps.var_defs))[i]?)
          ∧ (∀ i, i < ec.last_row → e'.values[i]? = ec.values[i]?)) := by
  constructor
  · intro hlay
    rw [extend_dataset_individual ps p f hlay] at hok
    injection hok with hteq
    subst hteq
    constructor
    · intro e he hle hnd hv
      refine ⟨appendExtent ps.ds_increment p.rows.length 0 e (colData p v),
        ?_, appendExtent_last_row _ _ _ _ _, ?_, ?_⟩
      · show (extend_individual ps.ds_increment p f.ivars).lookup v = _
        unfold extend_individual
        rw [lookup_foldl_extend_mem hnd hv, he]
        rfl
      · intro i hi
        exact appendExtent_getElem?_in _ _ _ _ _ _ hinc hle
          (colData_length p v) hi
      · intro i hi
        exact appendExtent_getElem?_lt _ _ _ _ _ _ hle hi
    · intro hv
      show (extend_individual ps.ds_increment p f.ivars).lookup v = _
      unfold extend_individual
      rw [lookup_foldl_extend_not_mem hv]
  · intro hlay ec hec hle
    rw [extend_dataset_combined ps p f ec hlay hec] at hok
    injection hok with hteq
    subst hteq
    refine ⟨appendExtent ps.ds_increment p.rows.length
        (ps.var_defs.map (fun _ => some 0)) ec
        (p.rows.map (rowVals p ps.var_defs)),
      rfl, appendExtent_last_row _ _ _ _ _, ?_, ?_⟩
    · intro i hi
      exact appendExtent_getElem?_in _ _ _ _ _ _ hinc hle
        (List.length_map _ _) hi
    · intro i hi
      exact appendExtent_getElem?_lt _ _ _ _ _ _ hle hi

theorem C2_contiguous_append_witness :
    (∃ e', fInd1.ivars.lookup "temperature" = some e'
      ∧ e'.last_row = 0 + pkt2.rows.length
      ∧ (∀ i, i < pkt2.rows.length →
          e'.values[0 + i]? = (colData pkt2 "temperature")[i]?)
      ∧ (∀ i, i < 0 → e'.values[i]? = eInit10.values[i]?))
    ∧ (∃ e', fComb1.cvar = some e'
      ∧ e'.last_row = 0 + pkt2.rows.length
      ∧ (∀ i, i < pkt2.rows.length →
          e'.values[0 + i]? = (pkt2.rows.map (rowVals pkt2 psComb.var_defs))[i]?)
      ∧ (∀ i, i < 0 → e'.values[i]?
          = (List.replicate 10 (psComb.var_defs.map (fun _ => some (0 : Int))))[i]?)) :=
  ⟨((C2_contiguous_append psInd pkt2 fInd0 fInd1 "temperature"
      (by decide) (by rfl)).1 rfl).1 eInit10 (by rfl) (by decide)
      (by decide) (by decide),
   (C2_contiguous_append psComb pkt2 fComb0 fComb1 "temperature"
      (by decide) (by rfl)).2 rfl
      { values := List.replicate 10 (psComb.var_defs.map (fun _ => some 0)),
        last_row := 0 } (by rfl) (by decide)⟩

/-- C3: for every container state reachable by creation and appends,
every extent satisfies `last_row ≤ capacity`; capacity never shrinks
and changes only by multiples of `row_increment`; creation initialises
every extent with `last_row = 0` and capacity exactly `row_increment`. -/
theorem C3_invariants (ps : ParsedSchema) (hinc : 0 < ps.ds_increment) :
    (∀ dsid,
      (∀ q ∈ (create_container ps dsid).ivars,
        (q.2 : Extent Int).last_row = 0
        ∧ q.2.values.length = ps.ds_increment)
      ∧ (∀ e, (create_container ps dsid).cvar = some e →
        e.last_row = 0 ∧ e.values.length = ps.ds_increment))
    ∧ (∀ f, Reachable ps f → invariantLE f)
    ∧ (∀ f f' p, Reachable ps f → extend_dataset ps p f = .ok f' →
        (∀ v, ∃ k, capOf f' v = capOf f v + k * ps.ds_increment)
        ∧ (∃ k, capC f' = capC f + k * ps.ds_increment)) :=
  ⟨fun dsid => create_container_init ps dsid,
   reachable_invariantLE ps hinc,
   fun f f' p _ hok => extend_growth ps p f f' hok⟩

theorem C3_invariants_witness :
    0 < psInd.ds_increment
    ∧ invariantLE fInd0
    ∧ (∀ q ∈ fInd0.ivars,
        (q.2 : Extent Int).last_row = 0
        ∧ q.2.values.length = psInd.ds_increment)
    ∧ (∃ k, capOf fInd1 "time" = capOf fInd0 "time" + k * psInd.ds_increment) :=
  ⟨by decide,
   (C3_invariants psInd (by decide)).2.1 fInd0 (Reachable.create "d"),
   ((C3_invariants psInd (by decide)).1 "d").1,
   ((C3_invariants psInd (by decide)).2.2 fInd0 fInd1 pkt2
      (Reachable.create "d") (by rfl)).1 "time"⟩

/-- C5 counterexample: in the spec's own scenario (`row_increment = 10`,
capacity 10, `last_row = 5`, append 8 rows) the growth is triggered and
the post-growth headroom is `20 - 13 = 7`, which is less than one full
increment of 10. -/
theorem C5_headroom_cex :
    5 + 8 > (List.replicate 10 (0 : Int)).length
    ∧ (appendExtent 10 8 (0 : Int)
        { values := List.replicate 10 0, last_row := 5 }
        (List.replicate 8 1)).values.length - (5 + 8) = 7
    ∧ ¬ (10 ≤ 7) := by decide

/-- C5 (amended): when an append triggers a resize, the new capacity
strictly exceeds the immediate need — the headroom beyond
`last_row + num_rows` is at least
`row_increment - num_rows % row_increment`, hence at least 1; a full
increment of headroom is guaranteed only when `num_rows` is a multiple
of `row_increment`. -/
theorem C5_headroom (inc n : Nat) (e : Extent Int) (xs : List Int)
    (hinc : 0 < inc) (hle : e.last_row ≤ e.values.length)
    (htrig : e.last_row + n > e.values.length) :
    inc - n % inc
      ≤ (appendExtent inc n 0 e xs).values.length - (e.last_row + n)
    ∧ 1 ≤ (appendExtent inc n 0 e xs).values.length - (e.last_row + n) := by
  rw [appendExtent_length, if_pos htrig]
  have h1 := Nat.div_add_mod n inc
  have h2 := Nat.mod_lt n hinc
  have h3 : (n / inc + 1) * inc = inc * (n / inc) + inc := by ring
  omega

theorem C5_headroom_witness :
    (0 < 10 ∧ 5 ≤ (List.replicate 10 (0 : Int)).length
      ∧ 5 + 8 > (List.replicate 10 (0 : Int)).length)
    ∧ 10 - 8 % 10
        ≤ (appendExtent 10 8 (0 : Int)
            { values := List.replicate 10 0, last_row := 5 }
            (List.replicate 8 1)).values.length - (5 + 8) :=
  ⟨⟨by decide, by decide, by decide⟩,
   (C5_headroom 10 8 { values := List.replicate 10 0, last_row := 5 }
      (List.replicate 8 1) (by decide) (by decide) (by decide)).1⟩

/-- Fixture: a schema description with an empty variable list. -/
def emptySchema : DatasetSchema := { var_list := [] }

/-- Fixture: a schema description with a duplicated variable name. -/
def dupSchema : DatasetSchema :=
  { var_list := [{ name := "a" }, { name := "a" }] }

/-- C4 counterexample: `_parse_schema` succeeds on an empty variable
list and on a duplicate variable name, contradicting the claim that
compilation fails with `ConfigurationError` in exactly those cases. -/
theorem C4_parse_never_fails_cex :
    emptySchema.var_list.isEmpty = true
    ∧ (parse_schema emptySchema).isOk = true
    ∧ dupSchema.var_list.map VarInfo.name = ["a", "a"]
    ∧ (parse_schema dupSchema).isOk = true := by decide

/-- C4 (amended): schema compilation never fails — `_parse_schema`
raises no exception on any raw schema description, empty or
duplicate-named variable lists included (duplicate names silently
collapse in the name-to-definition map, and no `ConfigurationError`
exists in the code's exception taxonomy). -/
theorem C4_parse_schema_total (s : DatasetSchema) :
    ∃ ps, parse_schema s = .ok ps :=
  ⟨_, rfl⟩

/-- Fixture: parsed schema for the C6 counterexample — time stored as a
plain float (no conversion) plus one data variable. -/
def ps6 : ParsedSchema :=
  { ds_layout := DS_LAYOUT_INDIVIDUAL, ds_increment := 4,
    var_defs := [{ name := "time", base_type := some "float" },
                 { name := "v" }],
    var_defs_map := [("time", { name := "time", base_type := some "float" }),
                     ("v", { name := "v" })],
    time_var := "time",
    var_index := [("time", 0), ("v", 1)] }

/-- Fixture: container whose variables have diverged `last_row` values
(time has 2 committed rows, v only 1 — legitimate per Individual
layout). -/
def f6 : DSFile :=
  { dataset_id := "d", layout := DS_LAYOUT_INDIVIDUAL,
    ivars := [("time", { values := [7, 8, 0, 0], last_row := 2 }),
              ("v", { values := [5, 0, 0, 0], last_row := 1 })] }

/-- Fixture: the same container with equal `last_row` values. -/
def f6b : DSFile :=
  { dataset_id := "d", layout := DS_LAYOUT_INDIVIDUAL,
    ivars := [("time", { values := [7, 8, 0, 0], last_row := 2 }),
              ("v", { values := [5, 6, 0, 0], last_row := 2 })] }

/-- C6 counterexample: with diverged `last_row` values the zip
truncates — the returned pair sequence for `v` has length 1 while the
time sequence has length 2, so the claimed length equality fails. -/
theorem C6_transpose_length_cex :
    get_data ps6 (some f6) { transpose_time := true }
      = .ok (.transposed [("v", [((7 : Int), (5 : Int))])])
    ∧ get_data ps6 (some f6) { transpose_time := false }
      = .ok (.plain [("time", [7, 8]), ("v", [5])])
    ∧ [((7 : Int), (5 : Int))].length ≠ [(7 : Int), 8].length :=
  ⟨rfl, rfl, by decide⟩

/-- C6 (amended): with `transpose_time` set, the standalone time
sequence is removed and every remaining variable's sequence is replaced
by its positional zip with the time sequence; under the equal-length
precondition every returned pair sequence has the time sequence's
length and pairs the i-th time value with the variable's i-th value. -/
theorem C6_transpose_pairs (ps : ParsedSchema) (f : DSFile)
    (flt : DataFilter) (res : List (String × List Int)) (ts : List Int)
    (hlay : ps.ds_layout = DS_LAYOUT_INDIVIDUAL)
    (ht : flt.transpose_time = true)
    (hplain : get_data ps (some f) { flt with transpose_time := false }
      = .ok (.plain res))
    (hts : res.lookup ps.time_var = some ts)
    (hlen : ∀ q ∈ res, (q.2 : List Int).length = ts.length) :
    get_data ps (some f) flt
      = .ok (.transposed ((removeKey ps.time_var res).map
          (fun q => (q.1, ts.zip q.2))))
    ∧ ((removeKey ps.time_var res).map
        (fun q => (q.1, ts.zip q.2))).lookup ps.time_var = none
    ∧ ∀ q ∈ (removeKey ps.time_var res).map (fun q => (q.1, ts.zip q.2)),
        ∃ vs, (q.1, vs) ∈ res ∧ q.2 = ts.zip vs
          ∧ q.2.length = ts.length := by
  rw [get_data_individual ps f _ hlay] at hplain
  have hplain2 : (match collect_vars ps (flt.time_format.getD "unix_millis")
        (flt.max_rows.getD 999999999) f [] (effective_read_vars ps flt) with
      | Except.error err => (Except.error err : Except PyErr QueryResult)
      | Except.ok res0 => Except.ok (QueryResult.plain res0))
      = .ok (.plain res) := hplain
  refine ⟨?_, ?_, ?_⟩
  · rw [get_data_individual ps f flt hlay]
    cases hcol : collect_vars ps (flt.time_format.getD "unix_millis")
        (flt.max_rows.getD 999999999) f [] (effective_read_vars ps flt) with
    | error err =>
      rw [hcol] at hplain2
      have hcontra : (Except.error err : Except PyErr QueryResult)
          = .ok (.plain res) := hplain2
      cases hcontra
    | ok res0 =>
      rw [hcol] at hplain2
      have hplain3 : (Except.ok (QueryResult.plain res0)
          : Except PyErr QueryResult) = .ok (.plain res) := hplain2
      injection hplain3 with h
      injection h with h2
      subst h2
      show (if flt.transpose_time = true then
          match List.lookup ps.time_var res0 with
          | none => Except.error (PyErr.keyError ps.time_var)
          | some time_series =>
            Except.ok (QueryResult.transposed ((removeKey ps.time_var res0).map
              (fun q => (q.1, time_series.zip q.2))))
        else Except.ok (QueryResult.plain res0))
        = Except.ok (QueryResult.transposed ((removeKey ps.time_var res0).map
            (fun q => (q.1, ts.zip q.2))))
      rw [if_pos ht, hts]
  · apply lookup_none_of_not_mem_keys
    have hkeys : (((removeKey ps.time_var res).map
          (fun q => (q.1, ts.zip q.2))).map Prod.fst)
        = (removeKey ps.time_var res).map Prod.fst := by
      rw [List.map_map]
      rfl
    rw [hkeys]
    exact keys_removeKey_not_mem _ _
  · intro q hq
    obtain ⟨q0, hq0, rfl⟩ := List.mem_map.mp hq
    have hmem : q0 ∈ res := (mem_removeKey.mp hq0).1
    refine ⟨q0.2, hmem, rfl, ?_⟩
    show (ts.zip q0.2).length = ts.length
    rw [List.length_zip, hlen q0 hmem, Nat.min_self]

theorem C6_transpose_pairs_witness :
    (ps6.ds_layout = DS_LAYOUT_INDIVIDUAL
      ∧ get_data ps6 (some f6b) { transpose_time := false }
        = .ok (.plain [("time", [7, 8]), ("v", [5, 6])]))
    ∧ get_data ps6 (some f6b) { transpose_time := true }
      = .ok (.transposed ((removeKey "time"
          [("time", [7, 8]), ("v", [5, 6])]).map
            (fun q => (q.1, [(7 : Int), 8].zip q.2)))) :=
  ⟨⟨rfl, rfl⟩,
   (C6_transpose_pairs ps6 f6b { transpose_time := true }
      [("time", [7, 8]), ("v", [5, 6])] [7, 8] rfl rfl rfl rfl
      (by decide)).1⟩

theorem read_var_series_time_unix {ps : ParsedSchema} {tf : String}
    {mr : Nat} {f : DSFile} {v : String} {e : Extent Int} {vi : VarInfo}
    (he : f.ivars.lookup v = some e) (hvt : v = ps.time_var)
    (hvi : ps.var_defs_map.lookup v = some vi)
    (hbase : vi.base_type.getD "" = "ntp_time") (htf : tf = "unix_millis") :
    read_var_series ps tf mr f v
      = .ok (some ((sliceWindow e mr).map ntp_to_unix_millis)) := by
  simp only [read_var_series, he]
  rw [if_pos hvt]
  simp only [hvi]
  rw [if_pos hbase, if_pos htf]

theorem read_var_series_time_other {ps : ParsedSchema} {tf : String}
    {mr : Nat} {f : DSFile} {v : String} {e : Extent Int} {vi : VarInfo}
    (he : f.ivars.lookup v = some e) (hvt : v = ps.time_var)
    (hvi : ps.var_defs_map.lookup v = some vi)
    (hbase : vi.base_type.getD "" = "ntp_time") (htf : tf ≠ "unix_millis") :
    read_var_series ps tf mr f v = .ok (some (sliceWindow e mr)) := by
  simp only [read_var_series, he]
  rw [if_pos hvt]
  simp only [hvi]
  rw [if_pos hbase, if_neg htf]

/-- C7: in an Individual-layout query, a requested variable that is the
designated time variable with recognized base type `"ntp_time"` is
returned, under `time_format = "unix_millis"`, with each raw value
converted to integer milliseconds since the Unix epoch; under any other
requested format, and for every non-time variable, the native on-disk
values are returned unconverted. -/
theorem C7_time_format_conversion (ps : ParsedSchema) (f : DSFile)
    (flt : DataFilter) (v : String) (e : Extent Int) (vi : VarInfo)
    (res : List (String × List Int))
    (hlay : ps.ds_layout = DS_LAYOUT_INDIVIDUAL)
    (htr : flt.transpose_time = false)
    (hv : v ∈ effective_read_vars ps flt)
    (he : f.ivars.lookup v = some e)
    (hok : get_data ps (some f) flt = .ok (.plain res)) :
    (v = ps.time_var → ps.var_defs_map.lookup v = some vi →
      vi.base_type.getD "" = "ntp_time" →
      ((flt.time_format.getD "unix_millis" = "unix_millis" →
        res.lookup v = some ((sliceWindow e
          (flt.max_rows.getD 999999999)).map ntp_to_unix_millis))
      ∧ (flt.time_format.getD "unix_millis" ≠ "unix_millis" →
        res.lookup v
          = some (sliceWindow e (flt.max_rows.getD 999999999)))))
    ∧ (v ≠ ps.time_var →
      res.lookup v = some (sliceWindow e (flt.max_rows.getD 999999999))) := by
  rw [get_data_individual ps f flt hlay] at hok
  have hcol : collect_vars ps (flt.time_format.getD "unix_millis")
      (flt.max_rows.getD 999999999) f [] (effective_read_vars ps flt)
      = .ok res := by
    cases hc : collect_vars ps (flt.time_format.getD "unix_millis")
        (flt.max_rows.getD 999999999) f [] (effective_read_vars ps flt) with
    | error err =>
      rw [hc] at hok
      have hcontra : (Except.error err : Except PyErr QueryResult)
          = .ok (.plain res) := hok
      cases hcontra
    | ok res0 =>
      rw [hc] at hok
      have hok2 : (if flt.transpose_time = true then
          match List.lookup ps.time_var res0 with
          | none => Except.error (PyErr.keyError ps.time_var)
          | some time_series =>
            Except.ok (QueryResult.transposed ((removeKey ps.time_var res0).map
              (fun q => (q.1, time_series.zip q.2))))
        else Except.ok (QueryResult.plain res0))
          = .ok (.plain res) := hok
      rw [htr] at hok2
      rw [if_neg (by decide : ¬ (false = true))] at hok2
      injection hok2 with h
      injection h with h2
      subst h2
      rfl
  refine ⟨fun hvt hvi hbase => ⟨fun htf => ?_, fun htf => ?_⟩, fun hne => ?_⟩
  · exact collect_lookup_mem (read_var_series_time_unix he hvt hvi hbase htf)
      (effective_read_vars ps flt) [] hv res hcol
  · exact collect_lookup_mem (read_var_series_time_other he hvt hvi hbase htf)
      (effective_read_vars ps flt) [] hv res hcol
  · have hser : read_var_series ps (flt.time_format.getD "unix_millis")
        (flt.max_rows.getD 999999999) f v
        = .ok (some (sliceWindow e (flt.max_rows.getD 999999999))) := by
      rw [read_var_series_ne_time hne, he]
      rfl
    exact collect_lookup_mem hser (effective_read_vars ps flt) [] hv res hcol

/-- Fixture: an Individual container holding one committed row in each
of the time and temperature extents, time stored as an NTP value one
second past the Unix epoch. -/
def fQ : DSFile :=
  { dataset_id := "d", layout := DS_LAYOUT_INDIVIDUAL,
    ivars := [("time", { values := [2208988801, 0], last_row := 1 }),
              ("temperature", { values := [21, 0], last_row := 1 })] }

theorem C7_time_format_conversion_witness :
    [("time", [(1000 : Int)]), ("temperature", [21])].lookup "time"
      = some ((sliceWindow { values := [2208988801, 0], last_row := 1 }
          999999999).map ntp_to_unix_millis)
    ∧ [("time", [(1000 : Int)]), ("temperature", [21])].lookup "temperature"
      = some (sliceWindow { values := [21, 0], last_row := 1 } 999999999) :=
  ⟨((C7_time_format_conversion psInd fQ {} "time"
      { values := [2208988801, 0], last_row := 1 } viTime
      [("time", [1000]), ("temperature", [21])]
      rfl rfl (by decide) rfl rfl).1 rfl rfl rfl).1 rfl,
   (C7_time_format_conversion psInd fQ {} "temperature"
      { values := [21, 0], last_row := 1 } viTemp
      [("time", [1000]), ("temperature", [21])]
      rfl rfl (by decide) rfl rfl).2 (by decide)⟩

/-- C8: querying a Combined-layout container fails with the
`NotImplementedError` ("not supported") exception and never returns a
result mapping, partial or otherwise (the container is opened in
read-only mode, so it is left unmodified). -/
theorem C8_combined_query_unsupported (ps : ParsedSchema) (f : DSFile)
    (flt : DataFilter) (hlay : ps.ds_layout = DS_LAYOUT_COMBINED) :
    get_data ps (some f) flt = .error .notImplementedError
    ∧ ∀ r, get_data ps (some f) flt ≠ .ok r := by
  have h := get_data_combined ps f flt hlay
  refine ⟨h, fun r hr => ?_⟩
  rw [h] at hr
  cases hr

theorem C8_combined_query_unsupported_witness :
    psComb.ds_layout = DS_LAYOUT_COMBINED
    ∧ get_data psComb (some fComb0) {} = .error .notImplementedError :=
  ⟨rfl, (C8_combined_query_unsupported psComb fComb0 {} rfl).1⟩

/-- C9: when the container file does not exist, `require_dataset`
unconditionally calls `os.makedirs` on the parent directory, which
raises when that directory already exists; hence creating a second
distinct dataset id under the same base path (or re-creating after the
file alone was deleted) fails instead of creating the container. -/
theorem C9_makedirs_collision (ps1 ps2 : ParsedSchema) (id1 id2 : String)
    (hne : ds_filename id2 ≠ ds_filename id1)
    (hpar : parent_dir (ds_filename id2) = parent_dir (ds_filename id1)) :
    (∀ fs : FS, fs.files.lookup (ds_filename id2) = none →
        fs.dirs.contains (parent_dir (ds_filename id2)) = true →
        require_dataset ps2 id2 fs
          = .error (.osError (parent_dir (ds_filename id2))))
    ∧ (∀ fs1 fn1 b1,
        require_dataset ps1 id1 { files := [], dirs := [] }
          = .ok (fs1, fn1, b1) →
        require_dataset ps2 id2 fs1
          = .error (.osError (parent_dir (ds_filename id2)))) := by
  constructor
  · intro fs hnone hdir
    have hdir' : parent_dir (ds_filename id2) ∈ fs.dirs := by
      simpa using hdir
    simp [require_dataset, hnone, hdir']
  · intro fs1 fn1 b1 hreq
    have hstep : require_dataset ps1 id1 { files := [], dirs := [] }
        = .ok ({ files := [(ds_filename id1, create_container ps1 id1)],
                 dirs := [parent_dir (ds_filename id1)] },
               ds_filename id1, true) := rfl
    rw [hstep] at hreq
    injection hreq with h
    injection h with hfs hrest
    subst hfs
    have hlook : (({ files := [(ds_filename id1, create_container ps1 id1)],
                     dirs := [parent_dir (ds_filename id1)] } : FS).files).lookup
          (ds_filename id2) = none := by
      rw [lookup_cons_ne hne]
      rfl
    have hcont : parent_dir (ds_filename id2)
        ∈ (({ files := [(ds_filename id1, create_container ps1 id1)],
              dirs := [parent_dir (ds_filename id1)] } : FS).dirs) := by
      rw [hpar]
      exact List.mem_singleton.mpr rfl
    simp [require_dataset, hlook, hcont, hpar]

theorem C9_makedirs_collision_witness :
    (ds_filename "b" ≠ ds_filename "a"
      ∧ parent_dir (ds_filename "b") = parent_dir (ds_filename "a"))
    ∧ ∀ fs1 fn1 b1,
        require_dataset psInd "a" { files := [], dirs := [] }
          = .ok (fs1, fn1, b1) →
        require_dataset psInd "b" fs1
          = .error (.osError (parent_dir (ds_filename "b"))) :=
  ⟨⟨by decide, by decide⟩,
   (C9_makedirs_collision psInd psInd "a" "b" (by decide) (by decide)).2⟩

/-- C10: with `transpose_time` set and the designated time variable not
among the returned variables (not requested, or absent from the
container), `get_data` raises `KeyError` at `res_data.pop(time_var)`
instead of returning a result mapping. -/
theorem C10_transpose_missing_time (ps : ParsedSchema) (f : DSFile)
    (flt : DataFilter)
    (hlay : ps.ds_layout = DS_LAYOUT_INDIVIDUAL)
    (htr : flt.transpose_time = true)
    (hmiss : ps.time_var ∉ effective_read_vars ps flt
      ∨ f.ivars.lookup ps.time_var = none) :
    get_data ps (some f) flt = .error (.keyError ps.time_var) := by
  rw [get_data_individual ps f flt hlay]
  have hcond : ps.time_var ∈ effective_read_vars ps flt →
      f.ivars.lookup ps.time_var = none := by
    intro hm
    rcases hmiss with h | h
    · exact absurd hm h
    · exact h
  obtain ⟨res, hok, hres⟩ := @collect_time_none ps
    (flt.time_format.getD "unix_millis") (flt.max_rows.getD 999999999) f
    (effective_read_vars ps flt) hcond []
  rw [hok]
  have hres2 : res.lookup ps.time_var = none := hres
  show (if flt.transpose_time = true then
      match List.lookup ps.time_var res with
      | none => Except.error (PyErr.keyError ps.time_var)
      | some time_series =>
        Except.ok (QueryResult.transposed ((removeKey ps.time_var res).map
          (fun q => (q.1, time_series.zip q.2))))
    else Except.ok (QueryResult.plain res))
    = Except.error (PyErr.keyError ps.time_var)
  rw [if_pos htr, hres2]

/-- Fixture: a container lacking any extent for the time variable. -/
def fNoTime : DSFile :=
  { dataset_id := "d", layout := DS_LAYOUT_INDIVIDUAL,
    ivars := [("temperature", { values := [21, 0], last_row := 1 })] }

theorem C10_transpose_missing_time_witness :
    ({ read_variables := ["temperature"], transpose_time := true }
        : DataFilter).transpose_time = true
    ∧ get_data psInd (some fNoTime)
        { read_variables := ["temperature"], transpose_time := true }
      = .error (.keyError "time") :=
  ⟨rfl,
   C10_transpose_missing_time psInd fNoTime
     { read_variables := ["temperature"], transpose_time := true }
     rfl rfl (Or.inl (by decide))⟩

end Scion
